import Mathlib

/-!
Verification development for the docminer documentation scraper.

JavaScript strings are modelled as `List Char`; JS `Number` values are
modelled as `ℚ` (for the autoscaler arithmetic), `ℤ` (for parsed CLI
integers) or `ℕ` (for timestamps and counters).  Each definition below is a
shallow embedding of the correspondingly named function of the TypeScript
source; the file or symbol it embeds is named in its doc comment.
-/

namespace Docminer

/-- JS `String.prototype.startsWith`: the second argument is a prefix of the
first. -/
def strStartsWith (l p : List Char) : Bool := decide (p <+: l)

/-- JS `String.prototype.endsWith`: the second argument is a suffix of the
first. -/
def strEndsWith (l s : List Char) : Bool := decide (s <:+ l)

/-- JS `String.prototype.trimEnd` (trailing-whitespace strip); whitespace is
modelled by `Char.isWhitespace`. -/
def trimRightL (l : List Char) : List Char :=
  (l.reverse.dropWhile Char.isWhitespace).reverse

/-- JS `String.prototype.trim` (both ends). -/
def trimBoth (l : List Char) : List Char :=
  trimRightL (l.dropWhile Char.isWhitespace)

/-! ### C3 — utils: `isPathInScope` (src/unnamed/part_005, lines 114-127) -/

/-- The `bareScope` local of `isPathInScope`: JS
`scopePath.endsWith("/") ? scopePath.slice(0, -1) || "/" : scopePath`
(`slice(0,-1)` drops the final character; `|| "/"` replaces an empty
result). -/
def bareScope (scopePath : List Char) : List Char :=
  if strEndsWith scopePath ['/'] then
    (if scopePath.dropLast = [] then ['/'] else scopePath.dropLast)
  else scopePath

/-- The `normalizedScope` local of `isPathInScope`: JS
`bareScope === "/" ? "/" : bareScope + "/"`. -/
def normScope (scopePath : List Char) : List Char :=
  if bareScope scopePath = ['/'] then ['/'] else bareScope scopePath ++ ['/']

/-- Embeds `isPathInScope` of src/unnamed/part_005. -/
def isPathInScope (pathname scopePath : List Char) : Bool :=
  if scopePath = ['/'] then true
  else
    pathname = bareScope scopePath ∨ pathname = normScope scopePath ∨
      strStartsWith pathname (normScope scopePath) = true

/-- The scope predicate exactly as claim C3 words it (spec §3 "Path
scoping"): `pathname == scope`, or `pathname == scope+"/"`, or `pathname`
starts with `scope+"/"`, with scope `"/"` matching everything. -/
def inScopeClaim (pathname scopePath : List Char) : Bool :=
  scopePath = ['/'] ∨ pathname = scopePath ∨ pathname = scopePath ++ ['/'] ∨
    strStartsWith pathname (scopePath ++ ['/']) = true

/-! ### C5 — robots: `createEvaluator` (src/src/robots.ts, lines 39-61) -/

/-- The rule-selection loop of `createEvaluator`: fold over the rules keeping
the longest rule that is a prefix of the pathname (ties keep the earlier
rule, as in the source's strict `>` comparison). -/
def longestMatch (rules : List (List Char)) (pathname : List Char) : List Char :=
  rules.foldl
    (fun acc r =>
      if strStartsWith pathname r = true ∧ acc.length < r.length then r else acc)
    []

/-- Embeds the evaluator returned by `createEvaluator` in src/src/robots.ts:
longest matching Allow versus longest matching Disallow. -/
def isAllowed (allowRules disallowRules : List (List Char))
    (pathname : List Char) : Bool :=
  let longestAllow := longestMatch allowRules pathname
  let longestDisallow := longestMatch disallowRules pathname
  if longestAllow.length = 0 ∧ longestDisallow.length = 0 then true
  else decide (longestDisallow.length ≤ longestAllow.length)

/-- Specification-level quantity for C5: the maximum length among the rules
that are prefixes of the pathname (0 when none matches). -/
def maxMatchLen (rules : List (List Char)) (pathname : List Char) : ℕ :=
  ((rules.filter (fun r => strStartsWith pathname r)).map List.length).foldr
    max 0

/-! ### C8 — links: external-marker helpers (src/src/links.ts, lines 243-257)
and the display-text computation of `rewriteInlineMarkdownLinks`
(src/src/links.ts, lines 487-547) -/

/-- The `EXTERNAL_MARKER` constant of src/src/links.ts. -/
def externalMarker : Char := '↗'

/-- Embeds `withExternalMarker` of src/src/links.ts: append a single marker
unless the end-trimmed text already ends with it. -/
def withExternalMarker (text : List Char) : List Char :=
  if strEndsWith (trimRightL text) [externalMarker] then text
  else text ++ [' ', externalMarker]

/-- Embeds `removeExternalMarker` of src/src/links.ts, which is
`text.replace(/\s*↗\s*$/, "").trimEnd()`: the regex deletes one trailing
marker together with the whitespace around it, and the end is trimmed in
every case.  Deleting the leftmost end-anchored match of that regex is the
same as end-trimming, dropping a final marker when present, and end-trimming
again. -/
def removeExternalMarker (text : List Char) : List Char :=
  if strEndsWith (trimRightL text) [externalMarker] then
    trimRightL (trimRightL text).dropLast
  else trimRightL text

/-- Embeds `normalizeLinkLabel` of src/src/links.ts. -/
def normalizeLinkLabel (text : List Char) (external : Bool) : List Char :=
  if external then withExternalMarker text else removeExternalMarker text

/-- The display-text computation inside the match loop of
`rewriteInlineMarkdownLinks` (src/src/links.ts, lines 526-531): a link that
is rewritten to a relative path has the marker removed, any other link is
relabelled according to whether it is external. -/
def inlineDisplayText (replacement : Option (List Char)) (external : Bool)
    (text : List Char) : List Char :=
  match replacement with
  | some _ => removeExternalMarker text
  | none => normalizeLinkLabel text external

/-! ### C7 — network: `buildMarkdownCandidateUrl` (src/src/network.ts,
lines 91-122) -/

/-- A parsed JS `URL` restricted to the components this code touches.  The
origin (scheme plus host) and the query are carried opaquely; `toString`
renders them around the pathname.  `new URL("https://x")` normalizes the
pathname to `"/"`, so a root URL always arrives here with pathname `/`. -/
structure JsUrl where
  origin : String
  pathname : List Char
  search : String
  hash : String
deriving DecidableEq

/-- JS `replace(/\/+$/, "")`: drop the maximal run of trailing slashes. -/
def dropTrailingSlashes (p : List Char) : List Char :=
  (p.reverse.dropWhile (fun c => c = '/')).reverse

/-- JS `String.prototype.toLowerCase`, per character. -/
def toLowerL (l : List Char) : List Char := l.map Char.toLower

/-- Embeds `buildMarkdownCandidateUrl` of src/src/network.ts. -/
def buildMarkdownCandidateUrl (u : JsUrl) : JsUrl :=
  let stripped : JsUrl := { u with hash := "" }
  let originalPath := stripped.pathname
  let lowerPath := toLowerL originalPath
  if strEndsWith lowerPath (".md".data) ∨ strEndsWith lowerPath (".txt".data)
  then stripped
  else if originalPath = ("/".data) ∨ originalPath = [] then
    { stripped with pathname := ("/llms.txt".data) }
  else if strEndsWith originalPath ['/'] then
    let trimmed := dropTrailingSlashes originalPath
    if trimmed = [] then { stripped with pathname := ("/llms.txt".data) }
    else if strEndsWith (toLowerL trimmed) (".md".data) then
      { stripped with pathname := trimmed }
    else { stripped with pathname := trimmed ++ (".md".data) }
  else { stripped with pathname := originalPath ++ (".md".data) }

/-- The pathname component of `buildMarkdownCandidateUrl` on its own: the
function reads and writes no other URL component besides clearing the
hash. -/
def candidatePath (originalPath : List Char) : List Char :=
  let lowerPath := toLowerL originalPath
  if strEndsWith lowerPath (".md".data) ∨ strEndsWith lowerPath (".txt".data)
  then originalPath
  else if originalPath = ("/".data) ∨ originalPath = [] then "/llms.txt".data
  else if strEndsWith originalPath ['/'] then
    let trimmed := dropTrailingSlashes originalPath
    if trimmed = [] then "/llms.txt".data
    else if strEndsWith (toLowerL trimmed) (".md".data) then trimmed
    else trimmed ++ (".md".data)
  else originalPath ++ (".md".data)

/-! ### C1 — io: `writeOutputs` (src/src/io.ts, lines 7-31) -/

/-- The files `writeOutputs` can create. -/
inductive OutputFile
  | page
  | clutterFile
  | llms
  | llmsFull
deriving DecidableEq

/-- What one call of `writeOutputs` does, as data: the files written, in
order, and whether the "llms files already exist" skip notice was logged. -/
structure WriteOutcome where
  writes : List OutputFile
  loggedSkip : Bool
deriving DecidableEq

/-- Embeds `writeOutputs` of src/src/io.ts as a pure function of the options
and the on-disk state: `hasClutter` is the truthiness of
`result.clutterMarkdown`, and `llmsExists` / `llmsFullExists` are the
`fileExists` probes of the two llms paths. -/
def writeOutputs (overwriteLlms clutter hasClutter llmsExists llmsFullExists :
    Bool) : WriteOutcome :=
  { writes :=
      [OutputFile.page] ++
        (if clutter && hasClutter then [OutputFile.clutterFile] else []) ++
        (if overwriteLlms then [OutputFile.llms, OutputFile.llmsFull] else []),
    loggedSkip := !overwriteLlms && (llmsExists || llmsFullExists) }

/-! ### C2 / C10 — network: `fetchWithTimeout`, `fetchWithRetries`
(src/src/network.ts, lines 34-82) and `fetchMarkdownIfAvailable`
(src/src/network.ts, lines 124-176); markdown worker decision
(src/src/workers/markdown-worker.ts, lines 103-119) -/

/-- What one `fetch` attempt can yield before the code inspects it: a
transport-level failure (rejected promise: DNS, reset, abort on timeout) or
an HTTP response with status, status text and body. -/
inductive FetchAttempt
  | transportError (msg : String)
  | httpResponse (status : ℕ) (statusText : String) (body : List Char)
deriving DecidableEq

/-- JS `Response.ok`: status in the 2xx range. -/
def responseOk (status : ℕ) : Bool := decide (200 ≤ status ∧ status ≤ 299)

/-- Embeds `fetchWithTimeout` of src/src/network.ts applied to one attempt
outcome: a transport error propagates, a non-2xx response becomes the error
`HTTP <status> <statusText>`, a 2xx response yields its body. -/
def fetchWithTimeout (a : FetchAttempt) : Except String (List Char) :=
  match a with
  | .transportError msg => .error msg
  | .httpResponse st stx body =>
    if responseOk st then .ok body
    else .error ("HTTP " ++ toString st ++ " " ++ stx)

/-- The retry loop of `fetchWithRetries`: `remaining` is how many further
attempts are allowed after attempt `i`; any error — transport or HTTP —
moves to the next attempt, and the last error is rethrown when the budget is
exhausted. -/
def retryGo (attempts : ℕ → FetchAttempt) : ℕ → ℕ → Except String (List Char)
  | i, 0 => fetchWithTimeout (attempts i)
  | i, n + 1 =>
    match fetchWithTimeout (attempts i) with
    | .ok b => .ok b
    | .error _ => retryGo attempts (i + 1) n

/-- Embeds `fetchWithRetries` of src/src/network.ts: attempts
`0 .. retries` in order, where attempt `i` observes `attempts i`.  (The
`.css`/`.js` blocked-asset guard at its entry is outside this claim and is
not modelled.) -/
def fetchWithRetries (attempts : ℕ → FetchAttempt) (retries : ℕ) :
    Except String (List Char) :=
  retryGo attempts 0 retries

/-- The loop of `fetchMarkdownIfAvailable` of src/src/network.ts: a
transport error is retried while budget remains and yields `none` after
exhaustion; any HTTP response ends the loop at once — `none` for non-2xx
(404/410 and others alike, which differ only in logging), the body for
2xx. -/
def fetchMarkdownGo (attempts : ℕ → FetchAttempt) :
    ℕ → ℕ → Option (List Char)
  | i, 0 =>
    match attempts i with
    | .httpResponse st _ body => if responseOk st then some body else none
    | .transportError _ => none
  | i, n + 1 =>
    match attempts i with
    | .httpResponse st _ body => if responseOk st then some body else none
    | .transportError _ => fetchMarkdownGo attempts (i + 1) n

/-- Embeds `fetchMarkdownIfAvailable` of src/src/network.ts, reduced to the
fetched markdown (the companion URL it also returns plays no role in claim
C10; the blocked-asset guard is not modelled). -/
def fetchMarkdownIfAvailable (attempts : ℕ → FetchAttempt) (retries : ℕ) :
    Option (List Char) :=
  fetchMarkdownGo attempts 0 retries

/-- The escalation test of `runJob` in src/src/workers/markdown-worker.ts:
`!markdownSource || markdownSource.markdown.trim().length === 0` posts
`markdownUnavailable`. -/
def reportsMarkdownUnavailable (fetchResult : Option (List Char)) : Bool :=
  match fetchResult with
  | none => true
  | some md => decide (trimBoth md = [])

/-! ### C4 — autoscaler: `computeTargets` (src/src/args.ts, lines 1302-1349)
with its constants (src/src/args.ts, lines 971-982) -/

def MIN_TOTAL_WORKERS : ℤ := 2

def MIN_WORKERS_PER_KIND : ℤ := 1

def AUTOSCALE_TARGET_DRAIN_MS : ℚ := 6000

/-- The `clamp` helper of src/src/args.ts on JS numbers:
`Math.min(max, Math.max(min, value))`. -/
def rclamp (value lo hi : ℚ) : ℚ := min hi (max lo value)

/-- `clamp` at integer arguments (the shape `computeTargets` uses it in,
where the value is a `Math.ceil`/`Math.round` result and the bounds are
integers). -/
def iclamp (value lo hi : ℤ) : ℤ := min hi (max lo value)

/-- JS `Math.round` on an exact rational: round half away from zero upward,
i.e. `⌊x + 1/2⌋`. -/
def jround (x : ℚ) : ℤ := ⌊x + (1 / 2 : ℚ)⌋

/-- The targets `computeTargets` returns. -/
structure AutoScaleTargets where
  desiredTotal : ℤ
  desiredMarkdown : ℤ
  desiredHybrid : ℤ
deriving DecidableEq

/-- Embeds `computeTargets` of src/src/args.ts.  Queue and pool counts are
naturals; the EWMA metrics are rationals (exact stand-ins for the JS
doubles). -/
def computeTargets (pendingMarkdown pendingHybrid inFlightMarkdown
    inFlightHybrid : ℕ) (maxTotalWorkers : ℤ)
    (markdownActiveMs hybridActiveMs markdownUnavailableRate : ℚ) :
    AutoScaleTargets :=
  let pendingTotal := pendingMarkdown + pendingHybrid
  let inFlightTotal := inFlightMarkdown + inFlightHybrid
  let hasWork := 0 < pendingTotal + inFlightTotal
  let effectiveMarkdownRate := rclamp markdownUnavailableRate 0 1
  let safeMarkdownMs := max 1 markdownActiveMs
  let safeHybridMs := max 1 hybridActiveMs
  let markdownDemand : ℚ := (pendingMarkdown : ℚ) + (inFlightMarkdown : ℚ)
  let hybridDemand : ℚ :=
    (pendingHybrid : ℚ) + (inFlightHybrid : ℚ) +
      markdownDemand * effectiveMarkdownRate
  let markdownWorkMs := markdownDemand * safeMarkdownMs
  let hybridWorkMs := hybridDemand * safeHybridMs
  let totalWorkMs := markdownWorkMs + hybridWorkMs
  let desiredTotal :=
    if hasWork then
      iclamp (totalWorkMs / AUTOSCALE_TARGET_DRAIN_MS).ceil MIN_TOTAL_WORKERS
        maxTotalWorkers
    else MIN_TOTAL_WORKERS
  let desiredMarkdown :=
    if 0 < totalWorkMs then
      iclamp (jround (((desiredTotal : ℚ) * markdownWorkMs) / totalWorkMs))
        MIN_WORKERS_PER_KIND (desiredTotal - MIN_WORKERS_PER_KIND)
    else
      iclamp (jround ((desiredTotal : ℚ) / 2)) MIN_WORKERS_PER_KIND
        (desiredTotal - MIN_WORKERS_PER_KIND)
  let desiredHybrid := max MIN_WORKERS_PER_KIND (desiredTotal - desiredMarkdown)
  ⟨desiredTotal, desiredMarkdown, desiredHybrid⟩

/-- The desired worker total exactly as claim C4 words it (spec §4.8): the
raw EWMA metrics enter the formula, with no `max(1, ·)` floor on the active
times and no clamping of the markdown-unavailable rate. -/
def desiredTotalClaim (pendingMarkdown pendingHybrid inFlightMarkdown
    inFlightHybrid : ℕ) (maxTotalWorkers : ℤ)
    (markdownActiveMs hybridActiveMs markdownUnavailableRate : ℚ) : ℤ :=
  let markdownDemand : ℚ := (pendingMarkdown : ℚ) + (inFlightMarkdown : ℚ)
  let hybridDemand : ℚ :=
    (pendingHybrid : ℚ) + (inFlightHybrid : ℚ) +
      markdownDemand * markdownUnavailableRate
  if 0 < pendingMarkdown + pendingHybrid + inFlightMarkdown + inFlightHybrid
  then
    iclamp
      ((markdownDemand * markdownActiveMs + hybridDemand * hybridActiveMs) /
          AUTOSCALE_TARGET_DRAIN_MS).ceil
      MIN_TOTAL_WORKERS maxTotalWorkers
  else MIN_TOTAL_WORKERS

/-! ### C6 — rate limiter: `computeWaitUntil` (src/src/worker-scheduler.ts,
lines 261-275; the copy in src/src/args.ts, lines 1216-1230, is
identical) -/

/-- Embeds `computeWaitUntil`: the `nextAllowedByOrigin` map is a total
function with default 0 (JS `map.get(origin) ?? 0`), the url argument is
reduced to its origin, and `Date.now()` is the `now` argument.  Returns the
deadline together with the updated map; `delayMs <= 0` (here `= 0` on ℕ)
returns `now` and leaves the map untouched. -/
def computeWaitUntil (nextAllowedByOrigin : String → ℕ) (origin : String)
    (now delayMs : ℕ) : ℕ × (String → ℕ) :=
  if delayMs = 0 then (now, nextAllowedByOrigin)
  else
    let waitUntil := max now (nextAllowedByOrigin origin)
    (waitUntil,
      fun o => if o = origin then waitUntil + delayMs
        else nextAllowedByOrigin o)

/-- A sequence of `computeWaitUntil` calls against one origin, threading the
map state; `nows` is the sequence of `Date.now()` readings. -/
def runRateLimiter (delayMs : ℕ) (origin : String) :
    (String → ℕ) → List ℕ → List ℕ
  | _, [] => []
  | st, now :: rest =>
    let r := computeWaitUntil st origin now delayMs
    r.1 :: runRateLimiter delayMs origin r.2 rest

/-! ### C9 — CLI: `parsePositiveInt` (src/unnamed/part_005, lines 47-56) and
the numeric option handlers of `parseArgs` (src/unnamed/part_004) with the
defaults of src/src/constants.ts -/

/-- The exact mathematical integer denoted by a digit run (the `mathInt` of
the `parseInt` specification, before conversion to a double). -/
def digitsValue (ds : List Char) : ℤ :=
  ds.foldl (fun acc c => 10 * acc + ((c.toNat - '0'.toNat : ℕ) : ℤ)) 0

/-- The unsigned part of `Number.parseInt`: the exact value of the maximal
leading digit run, `none` when that run is empty (`parseInt`'s `NaN`
case). -/
def parseDigitsVal (l : List Char) : Option ℤ :=
  let ds := l.takeWhile Char.isDigit
  if ds = [] then none else some (digitsValue ds)

/-- A JS `Number` as `parseInt` can produce it: `NaN`, an infinity, or a
finite double.  Every finite double `parseInt` returns has an integer value
— magnitudes below 2^53 are integers already, and every finite double of
magnitude at least 2^53 is an integer — so the finite case carries a `ℤ`.
Negative zero is identified with zero; `parsePositiveInt` cannot observe
the difference, since neither passes its strict-positivity test. -/
inductive JsNum
  | nan
  | posInf
  | negInf
  | fin (v : ℤ)
deriving DecidableEq

/-- Floor of the base-2 logarithm (0 at 0 and 1), used to locate the 53-bit
significand window when rounding a large integer to a double. -/
def natLog2floor (n : ℕ) : ℕ :=
  if h : n < 2 then 0 else natLog2floor (n / 2) + 1
decreasing_by
  simp_wf
  omega

/-- IEEE-754 conversion of an exact integer to the nearest binary64 double
(`roundTiesToEven`, the rounding JS number conversion uses): magnitudes up
to 2^53 are exactly representable; a larger magnitude is rounded to the
nearest multiple of `2 ^ (⌊log2 n⌋ - 52)` with ties to the even quotient;
a rounded magnitude reaching 2^1024 overflows to the signed infinity. -/
def roundToDouble (v : ℤ) : JsNum :=
  let n := v.natAbs
  if n ≤ 2 ^ 53 then JsNum.fin v
  else
    let shift := natLog2floor n - 52
    let q0 := n / 2 ^ shift
    let r := n % 2 ^ shift
    let half := 2 ^ (shift - 1)
    let q :=
      if half < r then q0 + 1
      else if r < half then q0
      else if q0 % 2 = 0 then q0 else q0 + 1
    let m := q * 2 ^ shift
    if 2 ^ 1024 ≤ m then (if v < 0 then JsNum.negInf else JsNum.posInf)
    else JsNum.fin (if v < 0 then -(m : ℤ) else (m : ℤ))

/-- JS `Number.parseInt(·, 10)`: skip leading whitespace (modelled by
`Char.isWhitespace`), read an optional sign, then the maximal digit run; no
digits means `NaN`, and otherwise the result is the exact signed integer
converted to a double — rounded at 16 or more digits, an infinity from
roughly 309 digits up. -/
def jsParseInt10 (s : List Char) : JsNum :=
  match s.dropWhile Char.isWhitespace with
  | '-' :: r =>
    match parseDigitsVal r with
    | none => JsNum.nan
    | some v => roundToDouble (-v)
  | '+' :: r =>
    match parseDigitsVal r with
    | none => JsNum.nan
    | some v => roundToDouble v
  | t =>
    match parseDigitsVal t with
    | none => JsNum.nan
    | some v => roundToDouble v

/-- Embeds `parsePositiveInt` of src/unnamed/part_005: an absent or empty
(falsy) raw string yields the fallback, and so does any parse that fails
the source's `Number.isFinite(value) && value > 0` test — `NaN`, either
infinity, or a finite value that is not strictly positive. -/
def parsePositiveInt (raw : Option (List Char)) (fallback : ℤ) : ℤ :=
  match raw with
  | none => fallback
  | some s =>
    if s = [] then fallback
    else
      match jsParseInt10 s with
      | JsNum.fin v => if 0 < v then v else fallback
      | _ => fallback

/-- The numeric fields of `DEFAULT_OPTIONS` in src/src/constants.ts. -/
structure CliNumericOptions where
  maxDepth : ℤ
  maxPages : ℤ
  delayMs : ℤ
  concurrency : ℤ
  timeoutMs : ℤ
  retries : ℤ
deriving DecidableEq

/-- `DEFAULT_OPTIONS` of src/src/constants.ts, numeric fields. -/
def DEFAULT_OPTIONS : CliNumericOptions :=
  ⟨3, 200, 500, 4, 15000, 2⟩

/-- The `--max-depth` handler of `parseArgs` (src/unnamed/part_004):
`opts.maxDepth = parsePositiveInt(raw, DEFAULT_OPTIONS.maxDepth)`. -/
def parsedMaxDepth (raw : Option (List Char)) : ℤ :=
  parsePositiveInt raw DEFAULT_OPTIONS.maxDepth

/-- The `--max-pages` handler of `parseArgs`. -/
def parsedMaxPages (raw : Option (List Char)) : ℤ :=
  parsePositiveInt raw DEFAULT_OPTIONS.maxPages

/-- The `--delay` handler of `parseArgs`. -/
def parsedDelayMs (raw : Option (List Char)) : ℤ :=
  parsePositiveInt raw DEFAULT_OPTIONS.delayMs

/-- The `--concurrency` handler of `parseArgs`. -/
def parsedConcurrency (raw : Option (List Char)) : ℤ :=
  parsePositiveInt raw DEFAULT_OPTIONS.concurrency

/-- The `--timeout` handler of `parseArgs`. -/
def parsedTimeoutMs (raw : Option (List Char)) : ℤ :=
  parsePositiveInt raw DEFAULT_OPTIONS.timeoutMs

/-- The `--retries` handler of `parseArgs`. -/
def parsedRetries (raw : Option (List Char)) : ℤ :=
  parsePositiveInt raw DEFAULT_OPTIONS.retries

/-! ## Theorems -/

/-- C1 (counterexample): with `overwriteLlms` false and neither llms file on
disk, the claim asserts both llms files are still written; the code writes
only `page.md` and neither llms file. -/
theorem C1_counterexample :
    OutputFile.page ∈ (writeOutputs false false false false false).writes ∧
    OutputFile.llms ∉ (writeOutputs false false false false false).writes ∧
    OutputFile.llmsFull ∉ (writeOutputs false false false false false).writes :=
  by decide

/-- C1 (amended): `writeOutputs` always writes `page.md`; it writes
`.llms.md` and `llms-full.md` exactly when `--overwrite-llms` is set — when
the flag is off they are never written, not even when missing, and a skip
notice is logged exactly when the flag is off and at least one of them
already exists. -/
theorem C1_writeOutputs_amended :
    ∀ overwriteLlms clutter hasClutter llmsExists llmsFullExists : Bool,
      OutputFile.page ∈
          (writeOutputs overwriteLlms clutter hasClutter llmsExists
              llmsFullExists).writes ∧
        (OutputFile.llms ∈
            (writeOutputs overwriteLlms clutter hasClutter llmsExists
                llmsFullExists).writes ↔ overwriteLlms = true) ∧
        (OutputFile.llmsFull ∈
            (writeOutputs overwriteLlms clutter hasClutter llmsExists
                llmsFullExists).writes ↔ overwriteLlms = true) ∧
        ((writeOutputs overwriteLlms clutter hasClutter llmsExists
              llmsFullExists).loggedSkip = true ↔
          overwriteLlms = false ∧ (llmsExists = true ∨ llmsFullExists = true)) :=
  by decide

/-- C3 (counterexample): for a scope that itself ends with `/` the claimed
biconditional fails: `isPathInScope "/a" "/a/"` is true, while the claim's
right-hand side (`pathname == scope`, `pathname == scope+"/"`, or prefix
`scope+"/"`) is false. -/
theorem C3_counterexample :
    isPathInScope ("/a".data) ("/a/".data) = true ∧
      inScopeClaim ("/a".data) ("/a/".data) = false := by decide

/-- C3 (amended): `isPathInScope` first strips one trailing slash from the
scope (an all-slash scope collapses to `/`); the claimed biconditional then
holds against the stripped scope and its slash-terminated form, and for a
scope that does not end in `/` the stripped forms are the scope itself and
`scope+"/"`, recovering the claim verbatim. -/
theorem C3_isPathInScope_amended :
    ∀ p s : List Char,
      (isPathInScope p s = true ↔
        (s = ['/'] ∨ p = bareScope s ∨ p = normScope s ∨
          strStartsWith p (normScope s) = true)) ∧
      (strEndsWith s ['/'] = false →
        bareScope s = s ∧ normScope s = s ++ ['/']) := by
  intro p s
  constructor
  · unfold isPathInScope
    by_cases hs : s = ['/']
    · simp [hs]
    · simp [hs]
  · intro hs
    have hbare : bareScope s = s := by
      unfold bareScope
      simp [hs]
    refine ⟨hbare, ?_⟩
    have hne : s ≠ ['/'] := by
      intro h
      subst h
      simp [strEndsWith] at hs
    unfold normScope
    rw [hbare]
    simp [hne]

/-- C3 (witness for the amended theorem, instantiated at scope `/a`, which
does not end in a slash). -/
theorem C3_isPathInScope_amended_witness :
    strEndsWith ("/a".data) ['/'] = false ∧
      (bareScope ("/a".data) = "/a".data ∧
        normScope ("/a".data) = "/a".data ++ ['/']) :=
  ⟨by decide, (C3_isPathInScope_amended ("/x".data) ("/a".data)).2 (by decide)⟩

lemma maxMatchLen_cons (r : List Char) (rest : List (List Char))
    (p : List Char) :
    maxMatchLen (r :: rest) p =
      if strStartsWith p r then max r.length (maxMatchLen rest p)
      else maxMatchLen rest p := by
  by_cases h : strStartsWith p r
  · simp [maxMatchLen, List.filter_cons, h]
  · simp [maxMatchLen, List.filter_cons, h]

lemma longestMatch_length_aux (p : List Char) :
    ∀ (rules : List (List Char)) (acc : List Char),
      (rules.foldl
          (fun acc r =>
            if strStartsWith p r = true ∧ acc.length < r.length then r
            else acc)
          acc).length =
        max acc.length (maxMatchLen rules p) := by
  intro rules
  induction rules with
  | nil => intro acc; simp [maxMatchLen]
  | cons r rest ih =>
    intro acc
    rw [List.foldl_cons, ih, maxMatchLen_cons]
    by_cases h1 : strStartsWith p r
    · by_cases h2 : acc.length < r.length
      · simp [h1, h2]
        omega
      · simp [h1, h2]
        omega
    · simp [h1]

lemma longestMatch_length (rules : List (List Char)) (p : List Char) :
    (longestMatch rules p).length = maxMatchLen rules p := by
  have h := longestMatch_length_aux p rules []
  simpa [longestMatch] using h

lemma longestMatch_mem_aux (p : List Char) :
    ∀ (rules : List (List Char)) (acc : List Char),
      (rules.foldl
            (fun acc r =>
              if strStartsWith p r = true ∧ acc.length < r.length then r
              else acc)
            acc) = acc ∨
        ((rules.foldl
              (fun acc r =>
                if strStartsWith p r = true ∧ acc.length < r.length then r
                else acc)
              acc) ∈ rules ∧
          strStartsWith p
              (rules.foldl
                (fun acc r =>
                  if strStartsWith p r = true ∧ acc.length < r.length then r
                  else acc)
                acc) = true) := by
  intro rules
  induction rules with
  | nil => intro acc; simp
  | cons r rest ih =>
    intro acc
    rw [List.foldl_cons]
    by_cases h : strStartsWith p r = true ∧ acc.length < r.length
    · rcases ih (if strStartsWith p r = true ∧ acc.length < r.length then r
          else acc) with h2 | h2
      · right
        rw [h2]
        simp [h, h.1]
      · right
        exact ⟨List.mem_cons_of_mem r h2.1, h2.2⟩
    · rcases ih (if strStartsWith p r = true ∧ acc.length < r.length then r
          else acc) with h2 | h2
      · left
        rw [h2]
        simp [h]
      · right
        exact ⟨List.mem_cons_of_mem r h2.1, h2.2⟩

lemma longestMatch_mem_or_nil (rules : List (List Char)) (p : List Char) :
    longestMatch rules p = [] ∨
      (longestMatch rules p ∈ rules ∧
        strStartsWith p (longestMatch rules p) = true) := by
  have h := longestMatch_mem_aux p rules []
  simpa [longestMatch] using h

/-- C5: the robots evaluator computes the longest Allow rule and the longest
Disallow rule that are prefixes of the pathname (their lengths are the
maximal matching-rule lengths, and the selected rule is a matching member of
the rule list when nonempty); the pathname is allowed when both are empty,
and otherwise exactly when the longest matching Allow is at least as long as
the longest matching Disallow. -/
theorem C5_isAllowed_longest_prefix :
    ∀ (allowRules disallowRules : List (List Char)) (p : List Char),
      (longestMatch allowRules p).length = maxMatchLen allowRules p ∧
      (longestMatch disallowRules p).length = maxMatchLen disallowRules p ∧
      (longestMatch allowRules p = [] ∨
        (longestMatch allowRules p ∈ allowRules ∧
          strStartsWith p (longestMatch allowRules p) = true)) ∧
      (longestMatch disallowRules p = [] ∨
        (longestMatch disallowRules p ∈ disallowRules ∧
          strStartsWith p (longestMatch disallowRules p) = true)) ∧
      (isAllowed allowRules disallowRules p = true ↔
        ((maxMatchLen allowRules p = 0 ∧ maxMatchLen disallowRules p = 0) ∨
          maxMatchLen disallowRules p ≤ maxMatchLen allowRules p)) := by
  intro a d p
  refine ⟨longestMatch_length a p, longestMatch_length d p,
    longestMatch_mem_or_nil a p, longestMatch_mem_or_nil d p, ?_⟩
  simp only [isAllowed, longestMatch_length]
  by_cases h : maxMatchLen a p = 0 ∧ maxMatchLen d p = 0
  · simp [h]
  · simp only [h, if_false, decide_eq_true_eq]
    constructor
    · intro hle
      exact Or.inr hle
    · rintro (h0 | hle)
      · exact h0.elim
      · exact hle

lemma trimRightL_append_nonws (l : List Char) (c : Char)
    (h : c.isWhitespace = false) : trimRightL (l ++ [c]) = l ++ [c] := by
  simp [trimRightL, List.dropWhile_cons, h]

lemma trimRightL_append_ws (l : List Char) (c : Char)
    (h : c.isWhitespace = true) : trimRightL (l ++ [c]) = trimRightL l := by
  simp [trimRightL, List.dropWhile_cons, h]

lemma externalMarker_not_ws : externalMarker.isWhitespace = false := by decide

lemma trimRightL_marker_append (t : List Char) :
    trimRightL (t ++ [' ', externalMarker]) = t ++ [' ', externalMarker] := by
  have h : t ++ [' ', externalMarker] = (t ++ [' ']) ++ [externalMarker] := by
    simp
  rw [h, trimRightL_append_nonws _ _ externalMarker_not_ws]

lemma endsWith_marker_append (t : List Char) :
    strEndsWith (t ++ [' ', externalMarker]) [externalMarker] = true := by
  have h : t ++ [' ', externalMarker] = (t ++ [' ']) ++ [externalMarker] := by
    simp
  rw [h]
  simp only [strEndsWith, decide_eq_true_eq]
  exact ⟨t ++ [' '], rfl⟩

lemma withExternalMarker_of_marked (t : List Char)
    (h : strEndsWith (trimRightL t) [externalMarker] = true) :
    withExternalMarker t = t := by
  simp [withExternalMarker, h]

lemma withExternalMarker_of_unmarked (t : List Char)
    (h : strEndsWith (trimRightL t) [externalMarker] = false) :
    withExternalMarker t = t ++ [' ', externalMarker] := by
  simp [withExternalMarker, h]

lemma withExternalMarker_append_marker (t : List Char) :
    withExternalMarker (t ++ [' ', externalMarker]) =
      t ++ [' ', externalMarker] := by
  apply withExternalMarker_of_marked
  rw [trimRightL_marker_append]
  exact endsWith_marker_append t

lemma dropLast_marker_append (t : List Char) :
    (t ++ [' ', externalMarker]).dropLast = t ++ [' '] := by
  have h : t ++ [' ', externalMarker] = (t ++ [' ']) ++ [externalMarker] := by
    simp
  rw [h]
  simp

lemma removeExternalMarker_append_marker (t : List Char) :
    removeExternalMarker (t ++ [' ', externalMarker]) = trimRightL t := by
  unfold removeExternalMarker
  rw [trimRightL_marker_append]
  rw [if_pos (endsWith_marker_append t)]
  rw [dropLast_marker_append]
  exact trimRightL_append_ws t ' ' (by decide)

/-- C8: appending the external marker is idempotent — the marker is appended
exactly when the end-trimmed display text does not already end with `↗`, so
a second rewrite of text that already carries the marker leaves it unchanged
(no doubled marker), and a link rewritten to a relative path gets
`removeExternalMarker`, which strips a trailing marker that the first
rewrite appended. -/
theorem C8_external_marker_idempotent :
    ∀ (t replacement : List Char) (external : Bool),
      withExternalMarker (withExternalMarker t) = withExternalMarker t ∧
      (strEndsWith (trimRightL t) [externalMarker] = true →
        withExternalMarker t = t) ∧
      (strEndsWith (trimRightL t) [externalMarker] = false →
        withExternalMarker t = t ++ [' ', externalMarker]) ∧
      withExternalMarker (t ++ [' ', externalMarker]) =
        t ++ [' ', externalMarker] ∧
      inlineDisplayText none true (withExternalMarker t) =
        withExternalMarker t ∧
      inlineDisplayText (some replacement) external t =
        removeExternalMarker t ∧
      removeExternalMarker (t ++ [' ', externalMarker]) = trimRightL t := by
  intro t replacement external
  have hidem : withExternalMarker (withExternalMarker t) =
      withExternalMarker t := by
    by_cases h : strEndsWith (trimRightL t) [externalMarker] = true
    · rw [withExternalMarker_of_marked t h, withExternalMarker_of_marked t h]
    · have h' : strEndsWith (trimRightL t) [externalMarker] = false := by
        simpa using h
      rw [withExternalMarker_of_unmarked t h']
      exact withExternalMarker_append_marker t
  refine ⟨hidem, withExternalMarker_of_marked t,
    withExternalMarker_of_unmarked t, withExternalMarker_append_marker t,
    ?_, rfl, removeExternalMarker_append_marker t⟩
  simpa [inlineDisplayText, normalizeLinkLabel] using hidem

/-- C8 (witness): the marker facts instantiated at the display text `Bun`
(whose trimmed form does not end with the marker). -/
theorem C8_external_marker_witness :
    strEndsWith (trimRightL ("Bun".data)) [externalMarker] = false ∧
      withExternalMarker ("Bun".data) =
        "Bun".data ++ [' ', externalMarker] :=
  ⟨by decide,
    (C8_external_marker_idempotent ("Bun".data) ("../b/page.md".data)
        true).2.2.1 (by decide)⟩

lemma buildMarkdownCandidateUrl_pathname (u : JsUrl) :
    (buildMarkdownCandidateUrl u).pathname = candidatePath u.pathname := by
  cases u with
  | mk o pth se ha =>
    unfold buildMarkdownCandidateUrl candidatePath
    dsimp only
    repeat' split
    all_goals rfl

lemma buildMarkdownCandidateUrl_fields (u : JsUrl) :
    (buildMarkdownCandidateUrl u).hash = "" ∧
      (buildMarkdownCandidateUrl u).origin = u.origin ∧
      (buildMarkdownCandidateUrl u).search = u.search := by
  cases u with
  | mk o pth se ha =>
    unfold buildMarkdownCandidateUrl
    dsimp only
    repeat' split
    all_goals exact ⟨rfl, rfl, rfl⟩

/-- C7: `buildMarkdownCandidateUrl` strips the hash and leaves origin and
query alone; a root (or empty) path maps to `/llms.txt`; a path already
ending in `.md` or `.txt` (case-insensitively) is unchanged; and the
companion-URL table holds, with a trailing slash dropped and `.md`
appended: `https://x/` and `https://x` (whose parsed pathname is `/`) map
to `https://x/llms.txt`, `https://x/a` and `https://x/a/` map to
`https://x/a.md`, and `https://x/a/b.md` and `https://x/a/llms.txt` are
unchanged. -/
theorem C7_buildMarkdownCandidateUrl_table :
    (∀ u : JsUrl,
      (buildMarkdownCandidateUrl u).hash = "" ∧
        (buildMarkdownCandidateUrl u).origin = u.origin ∧
        (buildMarkdownCandidateUrl u).search = u.search) ∧
    (∀ u : JsUrl, u.pathname = ("/".data) ∨ u.pathname = [] →
      (buildMarkdownCandidateUrl u).pathname = ("/llms.txt".data)) ∧
    (∀ u : JsUrl,
      (strEndsWith (toLowerL u.pathname) (".md".data) = true ∨
        strEndsWith (toLowerL u.pathname) (".txt".data) = true) →
      (buildMarkdownCandidateUrl u).pathname = u.pathname) ∧
    buildMarkdownCandidateUrl ⟨"https://x", "/".data, "", ""⟩ =
      ⟨"https://x", "/llms.txt".data, "", ""⟩ ∧
    buildMarkdownCandidateUrl ⟨"https://x", "/a".data, "", ""⟩ =
      ⟨"https://x", "/a.md".data, "", ""⟩ ∧
    buildMarkdownCandidateUrl ⟨"https://x", "/a/".data, "", ""⟩ =
      ⟨"https://x", "/a.md".data, "", ""⟩ ∧
    buildMarkdownCandidateUrl ⟨"https://x", "/a/b.md".data, "", ""⟩ =
      ⟨"https://x", "/a/b.md".data, "", ""⟩ ∧
    buildMarkdownCandidateUrl ⟨"https://x", "/a/llms.txt".data, "", ""⟩ =
      ⟨"https://x", "/a/llms.txt".data, "", ""⟩ ∧
    buildMarkdownCandidateUrl ⟨"https://x", "/a".data, "", "#top"⟩ =
      ⟨"https://x", "/a.md".data, "", ""⟩ := by
  refine ⟨buildMarkdownCandidateUrl_fields, ?_, ?_, by decide, by decide,
    by decide, by decide, by decide, by decide⟩
  · intro u h
    rw [buildMarkdownCandidateUrl_pathname]
    rcases h with h | h <;> rw [h] <;> decide
  · intro u h
    rw [buildMarkdownCandidateUrl_pathname]
    unfold candidatePath
    exact if_pos h

/-- C7 (witness): the unchanged case instantiated at
`https://x/a/llms.txt`. -/
theorem C7_buildMarkdownCandidateUrl_witness :
    (strEndsWith (toLowerL (JsUrl.pathname ⟨"https://x", "/a/llms.txt".data,
          "", ""⟩)) (".md".data) = true ∨
      strEndsWith (toLowerL (JsUrl.pathname ⟨"https://x", "/a/llms.txt".data,
          "", ""⟩)) (".txt".data) = true) ∧
      (buildMarkdownCandidateUrl ⟨"https://x", "/a/llms.txt".data, "",
          ""⟩).pathname =
        JsUrl.pathname ⟨"https://x", "/a/llms.txt".data, "", ""⟩ :=
  ⟨by decide,
    C7_buildMarkdownCandidateUrl_table.2.2.1
      ⟨"https://x", "/a/llms.txt".data, "", ""⟩ (by decide)⟩

lemma retryGo_all_err (attempts : ℕ → FetchAttempt) :
    ∀ (remaining i : ℕ),
      (∀ k, k ≤ remaining →
        ∃ e, fetchWithTimeout (attempts (i + k)) = .error e) →
      retryGo attempts i remaining = fetchWithTimeout (attempts (i + remaining)) := by
  intro remaining
  induction remaining with
  | zero => intro i _; simp [retryGo]
  | succ n ih =>
    intro i h
    obtain ⟨e, he⟩ := h 0 (Nat.zero_le _)
    rw [Nat.add_zero] at he
    simp only [retryGo, he]
    have h' : ∀ k, k ≤ n →
        ∃ e, fetchWithTimeout (attempts (i + 1 + k)) = .error e := by
      intro k hk
      have h2 := h (k + 1) (by omega)
      rwa [show i + (k + 1) = i + 1 + k by omega] at h2
    rw [ih (i + 1) h', show i + 1 + n = i + (n + 1) by omega]

lemma retryGo_first_ok (attempts : ℕ → FetchAttempt) (b : List Char) :
    ∀ (k remaining i : ℕ), k ≤ remaining →
      (∀ j, j < k → ∃ e, fetchWithTimeout (attempts (i + j)) = .error e) →
      fetchWithTimeout (attempts (i + k)) = .ok b →
      retryGo attempts i remaining = .ok b := by
  intro k
  induction k with
  | zero =>
    intro remaining i _ _ hok
    rw [Nat.add_zero] at hok
    cases remaining with
    | zero => simpa [retryGo] using hok
    | succ n => simp [retryGo, hok]
  | succ m ih =>
    intro remaining i hle herr hok
    cases remaining with
    | zero => omega
    | succ n =>
      obtain ⟨e, he⟩ := herr 0 (by omega)
      rw [Nat.add_zero] at he
      simp only [retryGo, he]
      refine ih n (i + 1) (by omega) ?_ ?_
      · intro j hj
        have h2 := herr (j + 1) (by omega)
        rwa [show i + (j + 1) = i + 1 + j by omega] at h2
      · rwa [show i + 1 + m = i + (m + 1) by omega]

/-- C2 (counterexample): `fetchWithRetries` does retry after an HTTP non-2xx
response — with a first attempt answering HTTP 500 and a second answering
200 with body `ok`, one configured retry yields the success, not the single
failure `HTTP 500 Internal Server Error` the claim predicts. -/
theorem C2_counterexample :
    fetchWithRetries
        (fun i =>
          if i = 0 then
            FetchAttempt.httpResponse 500 "Internal Server Error" []
          else FetchAttempt.httpResponse 200 "OK" ("ok".data))
        1 =
      Except.ok ("ok".data) ∧
    responseOk 500 = false ∧
    Except.ok ("ok".data) ≠
      (Except.error ("HTTP 500 Internal Server Error") :
        Except String (List Char)) := by
  refine ⟨rfl, rfl, ?_⟩
  intro h
  exact Except.noConfusion h

/-- C2 (amended): `fetchWithRetries` retries on every failed attempt —
transport errors and HTTP non-2xx responses alike — up to `retries` extra
attempts; the first successful attempt's body is returned, and when all
`retries + 1` attempts fail the last attempt's error propagates, which for
an HTTP non-2xx attempt is the single failure `HTTP <status> <reason>`. -/
theorem C2_fetchWithRetries_amended :
    ∀ (attempts : ℕ → FetchAttempt) (retries st : ℕ) (stx : String)
      (body b : List Char) (k : ℕ),
      ((∀ i, i ≤ retries → ∃ e, fetchWithTimeout (attempts i) = .error e) →
        fetchWithRetries attempts retries =
          fetchWithTimeout (attempts retries)) ∧
      (responseOk st = false →
        fetchWithTimeout (.httpResponse st stx body) =
          .error ("HTTP " ++ toString st ++ " " ++ stx)) ∧
      (k ≤ retries →
        (∀ j, j < k → ∃ e, fetchWithTimeout (attempts j) = .error e) →
        fetchWithTimeout (attempts k) = .ok b →
        fetchWithRetries attempts retries = .ok b) := by
  intro attempts retries st stx body b k
  refine ⟨?_, ?_, ?_⟩
  · intro h
    have := retryGo_all_err attempts retries 0 (by simpa using h)
    simpa [fetchWithRetries] using this
  · intro h
    simp [fetchWithTimeout, h]
  · intro hk herr hok
    have := retryGo_first_ok attempts b k retries 0 hk (by simpa using herr)
      (by simpa using hok)
    simpa [fetchWithRetries] using this

/-- C2 (witness for the amended theorem): an immediately successful attempt
(k = 0) returns its body. -/
theorem C2_fetchWithRetries_witness :
    fetchWithRetries (fun _ => FetchAttempt.httpResponse 200 "OK" ("ok".data))
        2 =
      Except.ok ("ok".data) :=
  (C2_fetchWithRetries_amended
        (fun _ => FetchAttempt.httpResponse 200 "OK" ("ok".data)) 2 200 "OK"
        ("ok".data) ("ok".data) 0).2.2
    (by omega) (fun j hj => absurd hj (by omega)) rfl

lemma trimBoth_of_all_ws (l : List Char)
    (h : ∀ c ∈ l, c.isWhitespace = true) : trimBoth l = [] := by
  have hdrop : l.dropWhile Char.isWhitespace = [] :=
    List.dropWhile_eq_nil_iff.mpr h
  simp [trimBoth, hdrop, trimRightL]

/-- C10: when the companion markdown fetch's first attempt is a 2xx response
whose body is whitespace-only, `fetchMarkdownIfAvailable` returns that body
and the markdown worker's escalation test fires, reporting
`markdownUnavailable` instead of completing with an empty page. -/
theorem C10_blank_markdown_escalates :
    ∀ (attempts : ℕ → FetchAttempt) (retries st : ℕ) (stx : String)
      (body : List Char),
      attempts 0 = FetchAttempt.httpResponse st stx body →
      responseOk st = true →
      (∀ c ∈ body, c.isWhitespace = true) →
      fetchMarkdownIfAvailable attempts retries = some body ∧
        reportsMarkdownUnavailable (fetchMarkdownIfAvailable attempts retries) =
          true := by
  intro attempts retries st stx body h0 hok hws
  have hfetch : fetchMarkdownIfAvailable attempts retries = some body := by
    cases retries with
    | zero => simp [fetchMarkdownIfAvailable, fetchMarkdownGo, h0, hok]
    | succ n => simp [fetchMarkdownIfAvailable, fetchMarkdownGo, h0, hok]
  refine ⟨hfetch, ?_⟩
  rw [hfetch]
  simp [reportsMarkdownUnavailable, trimBoth_of_all_ws body hws]

/-- C10 (witness): a 200 response whose body is two spaces and a newline is
escalated. -/
theorem C10_blank_markdown_witness :
    fetchMarkdownIfAvailable
        (fun _ => FetchAttempt.httpResponse 200 "OK" (" \n ".data)) 2 =
      some (" \n ".data) ∧
    reportsMarkdownUnavailable
        (fetchMarkdownIfAvailable
          (fun _ => FetchAttempt.httpResponse 200 "OK" (" \n ".data)) 2) =
      true :=
  C10_blank_markdown_escalates
    (fun _ => FetchAttempt.httpResponse 200 "OK" (" \n ".data)) 2 200 "OK"
    (" \n ".data) rfl (by decide) (by decide)

lemma computeWaitUntil_pos (st : String → ℕ) (o : String) (now d : ℕ)
    (hd : d ≠ 0) :
    computeWaitUntil st o now d =
      (max now (st o),
        fun x => if x = o then max now (st o) + d else st x) := by
  simp [computeWaitUntil, hd]

lemma runRateLimiter_chain (d : ℕ) (hd : d ≠ 0) (o : String) :
    ∀ (nows : List ℕ) (st : String → ℕ),
      List.Chain' (fun a b => a + d ≤ b) (runRateLimiter d o st nows) := by
  intro nows
  induction nows with
  | nil => intro st; simp [runRateLimiter]
  | cons n rest ih =>
    intro st
    rw [runRateLimiter, computeWaitUntil_pos st o n d hd]
    rcases rest with _ | ⟨m, rest'⟩
    · simp [runRateLimiter]
    · rw [runRateLimiter, computeWaitUntil_pos _ o m d hd]
      refine List.Chain'.cons ?_ ?_
      · simp
      · have h := ih (fun x => if x = o then max n (st o) + d else st x)
        rw [runRateLimiter, computeWaitUntil_pos _ o m d hd] at h
        exact h

/-- C6: with a positive delay, the per-origin deadlines returned by
successive `computeWaitUntil` calls against the same origin are
nondecreasing and each is at least `delayMs` after the previous one; each
call returns `max(now, nextAllowed[origin])` and stores that deadline plus
`delayMs` back for the origin. -/
theorem C6_rate_limiter_spacing :
    ∀ (delayMs : ℕ) (origin : String) (st : String → ℕ) (nows : List ℕ)
      (now : ℕ),
      0 < delayMs →
      List.Chain' (fun a b => a + delayMs ≤ b)
          (runRateLimiter delayMs origin st nows) ∧
        List.Chain' (fun a b => a ≤ b)
          (runRateLimiter delayMs origin st nows) ∧
        computeWaitUntil st origin now delayMs =
          (max now (st origin),
            fun o => if o = origin then max now (st origin) + delayMs
              else st o) := by
  intro d o st nows now hd
  have hchain := runRateLimiter_chain d (by omega) o nows st
  refine ⟨hchain, ?_, computeWaitUntil_pos st o now d (by omega)⟩
  exact hchain.imp (fun a b h => by omega)

/-- C6 (witness): delay 500 against one origin, three calls with clock
readings 10, 10, 2000. -/
theorem C6_rate_limiter_witness :
    0 < 500 ∧
      (List.Chain' (fun a b => a + 500 ≤ b)
          (runRateLimiter 500 "https://x" (fun _ => 0) [10, 10, 2000]) ∧
        List.Chain' (fun a b => a ≤ b)
          (runRateLimiter 500 "https://x" (fun _ => 0) [10, 10, 2000]) ∧
        computeWaitUntil (fun _ => 0) "https://x" 10 500 =
          (max 10 ((fun _ : String => 0) "https://x"),
            fun o => if o = "https://x" then
                max 10 ((fun _ : String => 0) "https://x") + 500
              else (fun _ : String => 0) o)) :=
  ⟨by decide,
    C6_rate_limiter_spacing 500 "https://x" (fun _ => 0) [10, 10, 2000] 10
      (by decide)⟩

/-- C4 (counterexample): `computeTargets` floors each active-time estimate
at 1 ms (`safeMarkdownMs`/`safeHybridMs`), which the claim's formula omits:
with 100000 pending markdown jobs, a markdown active-time EWMA of 1/2 ms, a
hybrid active time of 600 ms, unavailable rate 0 and a cap of 100 workers,
the code wants 17 workers while the claimed formula yields 9. -/
theorem C4_counterexample :
    (computeTargets 100000 0 0 0 100 (1 / 2 : ℚ) 600 0).desiredTotal = 17 ∧
      desiredTotalClaim 100000 0 0 0 100 (1 / 2 : ℚ) 600 0 = 9 ∧
      (17 : ℤ) ≠ 9 := by
  refine ⟨?_, ?_, by decide⟩
  · norm_num [computeTargets, rclamp, iclamp, Rat.ceil,
      AUTOSCALE_TARGET_DRAIN_MS, MIN_TOTAL_WORKERS, max_def, min_def]
  · norm_num [desiredTotalClaim, iclamp, Rat.ceil, AUTOSCALE_TARGET_DRAIN_MS,
      MIN_TOTAL_WORKERS, max_def, min_def]

/-- C4 (amended): the claimed drain-time formula holds whenever the metrics
are in the range the safeguards leave alone — both active-time EWMAs at
least 1 ms and the markdown-unavailable rate within [0, 1]; in general the
code applies `max(1, ·)` to the active times and clamps the rate to [0, 1]
before the formula.  With no pending or in-flight work the desired total is
`MIN_TOTAL_WORKERS`, unconditionally. -/
theorem C4_computeTargets_amended :
    ∀ (pm ph ifm ifh : ℕ) (maxTotal : ℤ) (mdMs hyMs rate : ℚ),
      (1 ≤ mdMs → 1 ≤ hyMs → 0 ≤ rate → rate ≤ 1 →
        (computeTargets pm ph ifm ifh maxTotal mdMs hyMs rate).desiredTotal =
          desiredTotalClaim pm ph ifm ifh maxTotal mdMs hyMs rate) ∧
      (computeTargets 0 0 0 0 maxTotal mdMs hyMs rate).desiredTotal =
        MIN_TOTAL_WORKERS := by
  intro pm ph ifm ifh maxTotal mdMs hyMs rate
  constructor
  · intro hmd hhy hr0 hr1
    have h1 : max (1 : ℚ) mdMs = mdMs := max_eq_right hmd
    have h2 : max (1 : ℚ) hyMs = hyMs := max_eq_right hhy
    have h3 : rclamp rate 0 1 = rate := by
      unfold rclamp
      rw [max_eq_right hr0, min_eq_right hr1]
    have hc : pm + ph + (ifm + ifh) = pm + ph + ifm + ifh := by omega
    simp only [computeTargets, desiredTotalClaim, h1, h2, h3, hc]
  · simp [computeTargets]

/-- C4 (witness for the amended theorem): at the initial EWMA defaults
(200 ms, 600 ms, rate 1/4) the code and the claimed formula agree. -/
theorem C4_computeTargets_witness :
    ((1 : ℚ) ≤ 200 ∧ (1 : ℚ) ≤ 600 ∧ (0 : ℚ) ≤ 1 / 4 ∧ (1 / 4 : ℚ) ≤ 1) ∧
      (computeTargets 30 5 2 1 8 200 600 (1 / 4)).desiredTotal =
        desiredTotalClaim 30 5 2 1 8 200 600 (1 / 4) :=
  ⟨⟨by norm_num, by norm_num, by norm_num, by norm_num⟩,
    (C4_computeTargets_amended 30 5 2 1 8 200 600 (1 / 4)).1 (by norm_num)
      (by norm_num) (by norm_num) (by norm_num)⟩

/-- C9: `parsePositiveInt` returns the `parseInt` value (the double the
parse produced) exactly when that value is finite and strictly positive,
and otherwise — `NaN`, either infinity, or a non-positive finite value —
silently falls back to the built-in default; so none of the six numeric CLI
options can be set to 0: `--max-depth 0` yields 3, `--delay 0` yields 500,
`--max-pages 0` yields 200, `--concurrency 0` yields 4, `--timeout 0`
yields 15000, `--retries 0` yields 2, and each parsed option is always
strictly positive. -/
theorem C9_parsePositiveInt_defaults :
    ∀ (s : List Char) (fb v : ℤ) (raw : Option (List Char)),
      (s ≠ [] → jsParseInt10 s = JsNum.fin v → 0 < v →
        parsePositiveInt (some s) fb = v) ∧
      (jsParseInt10 s = JsNum.fin v → v ≤ 0 →
        parsePositiveInt (some s) fb = fb) ∧
      (jsParseInt10 s = JsNum.nan → parsePositiveInt (some s) fb = fb) ∧
      (jsParseInt10 s = JsNum.posInf → parsePositiveInt (some s) fb = fb) ∧
      (jsParseInt10 s = JsNum.negInf → parsePositiveInt (some s) fb = fb) ∧
      parsePositiveInt none fb = fb ∧
      (0 < fb → 0 < parsePositiveInt raw fb) ∧
      parsedMaxDepth (some ("0".data)) = 3 ∧
      parsedDelayMs (some ("0".data)) = 500 ∧
      parsedMaxPages (some ("0".data)) = 200 ∧
      parsedConcurrency (some ("0".data)) = 4 ∧
      parsedTimeoutMs (some ("0".data)) = 15000 ∧
      parsedRetries (some ("0".data)) = 2 := by
  intro s fb v raw
  refine ⟨?_, ?_, ?_, ?_, ?_, rfl, ?_, by decide, by decide, by decide,
    by decide, by decide, by decide⟩
  · intro hne hp hpos
    simp [parsePositiveInt, hne, hp, hpos]
  · intro hp hnonpos
    by_cases hne : s = []
    · simp [parsePositiveInt, hne]
    · simp [parsePositiveInt, hne, hp, show ¬(0 : ℤ) < v by omega]
  · intro hp
    by_cases hne : s = []
    · simp [parsePositiveInt, hne]
    · simp [parsePositiveInt, hne, hp]
  · intro hp
    by_cases hne : s = []
    · simp [parsePositiveInt, hne]
    · simp [parsePositiveInt, hne, hp]
  · intro hp
    by_cases hne : s = []
    · simp [parsePositiveInt, hne]
    · simp [parsePositiveInt, hne, hp]
  · intro hfb
    match raw with
    | none => simpa [parsePositiveInt] using hfb
    | some s' =>
      by_cases hne : s' = []
      · simpa [parsePositiveInt, hne] using hfb
      · match hp : jsParseInt10 s' with
        | JsNum.nan => simpa [parsePositiveInt, hne, hp] using hfb
        | JsNum.posInf => simpa [parsePositiveInt, hne, hp] using hfb
        | JsNum.negInf => simpa [parsePositiveInt, hne, hp] using hfb
        | JsNum.fin w =>
          by_cases hw : 0 < w
          · simp [parsePositiveInt, hne, hp, hw]
          · simpa [parsePositiveInt, hne, hp, hw] using hfb

/-- C9 (witness): `--max-depth 42` parses to the finite double 42, which is
returned as is. -/
theorem C9_parsePositiveInt_witness :
    ("42".data ≠ ([] : List Char) ∧
        jsParseInt10 ("42".data) = JsNum.fin 42 ∧ (0 : ℤ) < 42) ∧
      parsePositiveInt (some ("42".data)) 3 = 42 :=
  ⟨⟨by decide, by decide, by decide⟩,
    (C9_parsePositiveInt_defaults ("42".data) 3 42 none).1 (by decide)
      (by decide) (by decide)⟩

end Docminer
